import Mathlib

/-!
Verification development for the g13 device session manager and its
LPBM framebuffer encoder. Definitions are shallow embeddings of
`g13gui/g13/displaydevice.py` and `g13gui/g13gui/g13/manager.py`.
-/

namespace G13

/-! ### Framebuffer encoder (`g13gui/g13/displaydevice.py`)

`DisplayMetrics` constants and `ImageToLPBM`. A PIL image (already reduced
to monochrome mode `'1'`, where pixel value 0 = black) is embedded as its
dimensions together with a total pixel function; `pixels[col, row]` access
out of the image bounds raises, embedded as `Except.error "IndexError"`. -/

def WIDTH_PIXELS : Nat := 160

def HEIGHT_PIXELS : Nat := 48

structure PILImage where
  width : Nat
  height : Nat
  px : Nat → Nat → Nat

/-- `pixels[col, row]` on a PIL pixel-access object: in-bounds access returns
the pixel value, out-of-bounds access raises an IndexError. -/
def getpixel (img : PILImage) (col row : Nat) : Except String Nat :=
  if col < img.width ∧ row < img.height then .ok (img.px col row) else .error "IndexError"

/-- `maxSubrow = 3 if row == 40 else 8` from `ImageToLPBM`. -/
def subrowCount (row : Nat) : Nat :=
  if row == 40 then 3 else 8

/-- The inner `for subrow in range(maxSubrow)` loop of `ImageToLPBM`,
accumulating `b |= (1 if pixel_value == 0 else 0) << subrow`. -/
def packSubrows (img : PILImage) (col row : Nat) : List Nat → Nat → Except String Nat
  | [], b => .ok b
  | s :: ss, b =>
    match getpixel img col (row + s) with
    | .error e => .error e
    | .ok pv => packSubrows img col row ss (b ||| ((if pv == 0 then 1 else 0) <<< s))

/-- One byte of the LPBM output: the loop body of `ImageToLPBM` for a fixed
`(col, row)` position. -/
def packByte (img : PILImage) (col row : Nat) : Except String Nat :=
  packSubrows img col row (List.range (subrowCount row)) 0

def maxBytes : Nat := WIDTH_PIXELS * HEIGHT_PIXELS / 8

/-- The outer `for byteNum in range(0, maxBytes)` loop of `ImageToLPBM`,
threading the mutable `col`/`row` cursor: after each byte `col += 1`, and
when `col % WIDTH_PIXELS == 0` the cursor resets to column 0 of the next
8-pixel row band. -/
def encodeFrom (img : PILImage) : Nat → Nat → Nat → Except String (List Nat)
  | 0, _, _ => .ok []
  | n + 1, col, row =>
    match packByte img col row with
    | .error e => .error e
    | .ok b =>
      match (if (col + 1) % WIDTH_PIXELS == 0 then encodeFrom img n 0 (row + 8)
             else encodeFrom img n (col + 1) row) with
      | .error e => .error e
      | .ok rest => .ok (b :: rest)

/-- `ImageToLPBM(image)`: convert a monochrome PIL image into the packed
LPBM byte sequence. -/
def ImageToLPBM (img : PILImage) : Except String (List Nat) :=
  encodeFrom img maxBytes 0 0

/-! Pure (error-free) description of the bytes the encoder produces, used to
characterize the output. -/

/-- Pure counterpart of `packSubrows`: fold the bit tests into a byte. -/
def packBitsL (f : Nat → Bool) : List Nat → Nat → Nat
  | [], b => b
  | s :: ss, b => packBitsL f ss (b ||| ((if f s then 1 else 0) <<< s))

/-- The byte the encoder emits at output index `i`: column `i % 160`, row
band `8 * (i / 160)`. -/
def lpbmByte (img : PILImage) (i : Nat) : Nat :=
  packBitsL (fun s => img.px (i % WIDTH_PIXELS) (8 * (i / WIDTH_PIXELS) + s) == 0)
    (List.range (subrowCount (8 * (i / WIDTH_PIXELS)))) 0

theorem packBitsL_testBit (f : Nat → Bool) :
    ∀ (l : List Nat) (b k : Nat),
      (packBitsL f l b).testBit k = (b.testBit k || (decide (k ∈ l) && f k)) := by
  intro l
  induction l with
  | nil => intro b k; simp [packBitsL]
  | cons s ss ih =>
    intro b k
    rw [packBitsL, ih]
    rcases hf : f s with _ | _
    · simp only [hf, if_neg Bool.false_ne_true, Nat.zero_shiftLeft, Nat.or_zero]
      by_cases hk : k = s
      · subst hk; simp [hf]
      · simp [hk, hf, List.mem_cons]
    · simp only [hf, if_true]
      rw [Nat.testBit_or]
      have hone : Nat.testBit (1 <<< s) k = decide (k = s) := by
        rw [Nat.shiftLeft_eq, one_mul, Nat.testBit_two_pow]
        by_cases h : s = k
        · simp [h]
        · simp [h, Ne.symm h]
      rw [hone]
      by_cases hk : k = s
      · subst hk; simp [hf]
      · simp [hk, hf, List.mem_cons]

theorem subrowCount_pos (row : Nat) : 0 < subrowCount row := by
  unfold subrowCount; split <;> decide

theorem packSubrows_ok (img : PILImage) (col row : Nat) :
    ∀ (l : List Nat) (b : Nat), (∀ s ∈ l, col < img.width ∧ row + s < img.height) →
      packSubrows img col row l b =
        .ok (packBitsL (fun s => img.px col (row + s) == 0) l b) := by
  intro l
  induction l with
  | nil => intro b _; rfl
  | cons s ss ih =>
    intro b hb
    have hs := hb s (List.mem_cons_self s ss)
    rw [packSubrows, getpixel, if_pos hs]
    exact ih _ (fun t ht => hb t (List.mem_cons_of_mem s ht))

theorem packSubrows_isOk_bounds (img : PILImage) (col row : Nat) :
    ∀ (l : List Nat) (b : Nat), (packSubrows img col row l b).isOk = true →
      ∀ s ∈ l, col < img.width ∧ row + s < img.height := by
  intro l
  induction l with
  | nil => intro b _ s hs; exact absurd hs (List.not_mem_nil s)
  | cons s ss ih =>
    intro b h t ht
    rw [packSubrows] at h
    rcases hg : getpixel img col (row + s) with e | pv
    · rw [hg] at h; exact absurd h (by simp [Except.isOk, Except.toBool])
    · rw [hg] at h
      have hbound : col < img.width ∧ row + s < img.height := by
        by_contra hc
        rw [getpixel, if_neg hc] at hg
        exact Except.noConfusion hg
      rcases List.mem_cons.mp ht with rfl | hts
      · exact hbound
      · exact ih _ h t hts

theorem packSubrows_error (img : PILImage) (col row : Nat) :
    ∀ (l : List Nat) (b : Nat), (packSubrows img col row l b).isOk = false →
      packSubrows img col row l b = .error "IndexError" := by
  intro l
  induction l with
  | nil => intro b h; exact absurd h (by simp [packSubrows, Except.isOk, Except.toBool])
  | cons s ss ih =>
    intro b h
    rw [packSubrows] at h ⊢
    rcases hg : getpixel img col (row + s) with e | pv
    · have he : e = "IndexError" := by
        rw [getpixel] at hg
        split at hg
        · exact Except.noConfusion hg
        · injection hg with h2
          exact h2.symm
      rw [he]
    · rw [hg] at h
      exact ih _ h

/-- The byte emitted for an in-bounds position equals the pure bit-packing. -/
theorem packByte_ok (img : PILImage) (col row : Nat)
    (hc : col < img.width) (hr : row + (subrowCount row - 1) < img.height) :
    packByte img col row =
      .ok (packBitsL (fun s => img.px col (row + s) == 0) (List.range (subrowCount row)) 0) := by
  apply packSubrows_ok
  intro s hs
  have : s < subrowCount row := List.mem_range.mp hs
  have hpos := subrowCount_pos row
  exact ⟨hc, by omega⟩

theorem packByte_isOk_bounds (img : PILImage) (col row : Nat)
    (h : (packByte img col row).isOk = true) :
    col < img.width ∧ row + (subrowCount row - 1) < img.height := by
  have hpos := subrowCount_pos row
  have := packSubrows_isOk_bounds img col row (List.range (subrowCount row)) 0 h
    (subrowCount row - 1) (List.mem_range.mpr (by omega))
  exact this

theorem subrowCount_le (row : Nat) : subrowCount row ≤ 8 := by
  unfold subrowCount; split <;> omega

theorem bandBounds (s : Nat) (hs : s < 960) :
    8 * (s / WIDTH_PIXELS) + (subrowCount (8 * (s / WIDTH_PIXELS)) - 1) < 43 := by
  show 8 * (s / 160) + (subrowCount (8 * (s / 160)) - 1) < 43
  rcases Nat.lt_or_ge (s / 160) 5 with h5 | h5
  · have h8 := subrowCount_le (8 * (s / 160))
    have hp := subrowCount_pos (8 * (s / 160))
    omega
  · have hq5 : s / 160 = 5 := by omega
    rw [hq5]
    decide

/-- Successful prefix of the encoding loop, starting the cursor at logical
byte index `s`. -/
theorem encodeFrom_ok (img : PILImage) (hw : 160 ≤ img.width) (hh : 43 ≤ img.height) :
    ∀ (n s : Nat), s + n ≤ 960 →
      encodeFrom img n (s % WIDTH_PIXELS) (8 * (s / WIDTH_PIXELS)) =
        .ok ((List.range' s n).map (lpbmByte img)) := by
  intro n
  induction n with
  | zero => intro s _; rfl
  | succ n ih =>
    intro s hs
    have hcol : s % WIDTH_PIXELS < img.width := by
      show s % 160 < img.width
      omega
    have hrow : 8 * (s / WIDTH_PIXELS) + (subrowCount (8 * (s / WIDTH_PIXELS)) - 1) <
        img.height := by
      have := bandBounds s (by omega)
      omega
    rw [encodeFrom, packByte_ok img _ _ hcol hrow]
    show (match (if (s % WIDTH_PIXELS + 1) % WIDTH_PIXELS == 0 then
            encodeFrom img n 0 (8 * (s / WIDTH_PIXELS) + 8)
          else encodeFrom img n (s % WIDTH_PIXELS + 1) (8 * (s / WIDTH_PIXELS))) with
      | Except.error e => Except.error e
      | Except.ok rest => Except.ok (lpbmByte img s :: rest)) = _
    by_cases hc : (s % WIDTH_PIXELS + 1) % WIDTH_PIXELS = 0
    · have hcb : ((s % WIDTH_PIXELS + 1) % WIDTH_PIXELS == 0) = true := by simpa using hc
      have h159 : s % 160 = 159 := by
        revert hc; show (s % 160 + 1) % 160 = 0 → _; omega
      have h2 : (s + 1) % WIDTH_PIXELS = 0 := by show (s + 1) % 160 = 0; omega
      have h3 : (s + 1) / WIDTH_PIXELS = s / WIDTH_PIXELS + 1 := by
        show (s + 1) / 160 = s / 160 + 1; omega
      rw [if_pos hcb,
        show (0 : Nat) = (s + 1) % WIDTH_PIXELS from h2.symm,
        show 8 * (s / WIDTH_PIXELS) + 8 = 8 * ((s + 1) / WIDTH_PIXELS) by rw [h3]; ring,
        ih (s + 1) (by omega)]
      rfl
    · have hcb2 : ¬((s % WIDTH_PIXELS + 1) % WIDTH_PIXELS == 0) = true := by
        simpa using hc
      have h2 : (s + 1) % WIDTH_PIXELS = s % WIDTH_PIXELS + 1 := by
        revert hc; show ¬(s % 160 + 1) % 160 = 0 → (s + 1) % 160 = s % 160 + 1; omega
      have h3 : (s + 1) / WIDTH_PIXELS = s / WIDTH_PIXELS := by
        revert hc; show ¬(s % 160 + 1) % 160 = 0 → (s + 1) / 160 = s / 160; omega
      rw [if_neg hcb2,
        show s % WIDTH_PIXELS + 1 = (s + 1) % WIDTH_PIXELS from h2.symm,
        show 8 * (s / WIDTH_PIXELS) = 8 * ((s + 1) / WIDTH_PIXELS) by rw [h3],
        ih (s + 1) (by omega)]
      rfl

/-- The cursor update of the encoding loop, as a single expression. -/
theorem encodeFrom_step_target (img : PILImage) (n s : Nat) :
    (if (s % WIDTH_PIXELS + 1) % WIDTH_PIXELS == 0 then
        encodeFrom img n 0 (8 * (s / WIDTH_PIXELS) + 8)
      else encodeFrom img n (s % WIDTH_PIXELS + 1) (8 * (s / WIDTH_PIXELS))) =
    encodeFrom img n ((s + 1) % WIDTH_PIXELS) (8 * ((s + 1) / WIDTH_PIXELS)) := by
  by_cases hc : (s % WIDTH_PIXELS + 1) % WIDTH_PIXELS = 0
  · have h159 : s % 160 = 159 := by
      revert hc; show (s % 160 + 1) % 160 = 0 → _; omega
    have h2 : (s + 1) % WIDTH_PIXELS = 0 := by show (s + 1) % 160 = 0; omega
    have h3 : (s + 1) / WIDTH_PIXELS = s / WIDTH_PIXELS + 1 := by
      show (s + 1) / 160 = s / 160 + 1; omega
    rw [if_pos (by simpa using hc), h2, h3, Nat.mul_succ]
  · have h2 : (s + 1) % WIDTH_PIXELS = s % WIDTH_PIXELS + 1 := by
      revert hc; show ¬(s % 160 + 1) % 160 = 0 → (s + 1) % 160 = s % 160 + 1; omega
    have h3 : (s + 1) / WIDTH_PIXELS = s / WIDTH_PIXELS := by
      revert hc; show ¬(s % 160 + 1) % 160 = 0 → (s + 1) / 160 = s / 160; omega
    rw [if_neg (by simpa using hc), h2, h3]

/-- If the encoding loop succeeds, every byte position it visits has a
successful `packByte`. -/
theorem encodeFrom_isOk_packByte (img : PILImage) :
    ∀ (n s i : Nat), i < n →
      (encodeFrom img n (s % WIDTH_PIXELS) (8 * (s / WIDTH_PIXELS))).isOk = true →
      (packByte img ((s + i) % WIDTH_PIXELS) (8 * ((s + i) / WIDTH_PIXELS))).isOk = true := by
  intro n
  induction n with
  | zero => intro s i hi; omega
  | succ n ih =>
    intro s i hi h
    rw [encodeFrom] at h
    rcases hp : packByte img (s % WIDTH_PIXELS) (8 * (s / WIDTH_PIXELS)) with e | b
    · rw [hp] at h
      exact absurd h (by simp [Except.isOk, Except.toBool])
    · rw [hp, encodeFrom_step_target] at h
      cases i with
      | zero =>
        rw [Nat.add_zero, hp]
        rfl
      | succ i =>
        have hok : (encodeFrom img n ((s + 1) % WIDTH_PIXELS)
            (8 * ((s + 1) / WIDTH_PIXELS))).isOk = true := by
          rcases hr : encodeFrom img n ((s + 1) % WIDTH_PIXELS)
              (8 * ((s + 1) / WIDTH_PIXELS)) with e | rest
          · rw [hr] at h
            exact absurd h (by simp [Except.isOk, Except.toBool])
          · rfl
        have := ih (s + 1) i (by omega) hok
        rw [show s + (i + 1) = s + 1 + i by omega]
        exact this

/-- The only failure the encoder can produce is the out-of-bounds pixel
access error. -/
theorem encodeFrom_error (img : PILImage) :
    ∀ (n col row : Nat), (encodeFrom img n col row).isOk = false →
      encodeFrom img n col row = .error "IndexError" := by
  intro n
  induction n with
  | zero =>
    intro col row h
    exact absurd h (by simp [encodeFrom, Except.isOk, Except.toBool])
  | succ n ih =>
    intro col row h
    rw [encodeFrom] at h ⊢
    rcases hp : packByte img col row with e | b
    · have hfalse : (packSubrows img col row (List.range (subrowCount row)) 0).isOk = false := by
        rw [show packSubrows img col row (List.range (subrowCount row)) 0 =
          packByte img col row from rfl, hp]
        rfl
      have h2 : packByte img col row = Except.error "IndexError" :=
        packSubrows_error img col row _ _ hfalse
      rw [hp] at h2
      injection h2 with h3
      rw [h3]
    · rw [hp] at h
      rcases hr : (if (col + 1) % WIDTH_PIXELS == 0 then encodeFrom img n 0 (row + 8)
          else encodeFrom img n (col + 1) row) with e | rest
      · have he : e = "IndexError" := by
          by_cases hc : ((col + 1) % WIDTH_PIXELS == 0) = true
          · rw [if_pos hc] at hr
            have h4 := ih 0 (row + 8) (by rw [hr]; rfl)
            rw [hr] at h4
            exact Except.error.inj h4
          · rw [if_neg hc] at hr
            have h4 := ih (col + 1) row (by rw [hr]; rfl)
            rw [hr] at h4
            exact Except.error.inj h4
        rw [he]
      · rw [hr] at h
        exact absurd h (by simp [Except.isOk, Except.toBool])

/-- `ImageToLPBM` succeeds whenever all the pixels it reads (columns 0–159,
rows 0–42) exist, and its output is exactly the 960 closed-form bytes. -/
theorem ImageToLPBM_ok (img : PILImage) (hw : 160 ≤ img.width) (hh : 43 ≤ img.height) :
    ImageToLPBM img = .ok ((List.range 960).map (lpbmByte img)) := by
  have h := encodeFrom_ok img hw hh 960 0 (by omega)
  have h0 : (0 : Nat) % WIDTH_PIXELS = 0 := rfl
  have h00 : 8 * ((0 : Nat) / WIDTH_PIXELS) = 0 := rfl
  rw [h0, h00] at h
  rw [ImageToLPBM, show maxBytes = 960 from rfl, h, List.range_eq_range']

/-- `ImageToLPBM` fails with the out-of-bounds pixel access error whenever
the image is too small for the pixels the fixed loop reads. -/
theorem ImageToLPBM_error (img : PILImage) (h : img.width < 160 ∨ img.height < 43) :
    ImageToLPBM img = .error "IndexError" := by
  have hW : WIDTH_PIXELS = 160 := rfl
  have hnot : ¬(encodeFrom img 960 (0 % WIDTH_PIXELS) (8 * (0 / WIDTH_PIXELS))).isOk = true := by
    intro hok
    rcases h with hw | hh
    · have hpb := encodeFrom_isOk_packByte img 960 0 img.width (by omega) hok
      rw [Nat.zero_add] at hpb
      have hb := packByte_isOk_bounds img _ _ hpb
      have hcol := hb.1
      rw [hW] at hcol
      omega
    · have hpb := encodeFrom_isOk_packByte img 960 0 800 (by omega) hok
      rw [Nat.zero_add] at hpb
      have e1 : (800 : Nat) % WIDTH_PIXELS = 0 := rfl
      have e2 : 8 * ((800 : Nat) / WIDTH_PIXELS) = 40 := rfl
      rw [e1, e2] at hpb
      have hb := packByte_isOk_bounds img _ _ hpb
      have hrow := hb.2
      rw [show subrowCount 40 = 3 from rfl] at hrow
      omega
  have hfalse : (ImageToLPBM img).isOk = false := by
    rcases hv : (ImageToLPBM img).isOk with _ | _
    · rfl
    · exact absurd (by
        rw [show ImageToLPBM img =
          encodeFrom img 960 (0 % WIDTH_PIXELS) (8 * (0 / WIDTH_PIXELS)) from rfl] at hv
        exact hv) hnot
  have := encodeFrom_error img maxBytes 0 0 hfalse
  exact this

theorem beq_nat_decide (a b : Nat) : (a == b) = decide (a = b) := by
  rcases eq_or_ne a b with hab | hab
  · subst hab
    simp
  · simp [hab]

/-- The bit `k` of the byte at output index `i`, in closed form. -/
theorem lpbmByte_testBit (img : PILImage) (i k : Nat) :
    (lpbmByte img i).testBit k =
      (decide (k < subrowCount (8 * (i / WIDTH_PIXELS))) &&
        (img.px (i % WIDTH_PIXELS) (8 * (i / WIDTH_PIXELS) + k) == 0)) := by
  rw [lpbmByte, packBitsL_testBit]
  simp [List.mem_range]

/-- A 161×48 all-white image: its dimensions are not the device's 160×48. -/
def wideImg : PILImage := ⟨161, 48, fun _ _ => 255⟩

/-- A 10×10 all-black image, smaller than the pixel window the encoder reads. -/
def tinyImg : PILImage := ⟨10, 10, fun _ _ => 0⟩

set_option maxRecDepth 10000 in
/-- C1 counterexample: `ImageToLPBM` performs no dimension check, so an image
whose width is 161 (not the device's 160) is encoded successfully to 960
bytes instead of failing with InvalidImageDimensions. -/
theorem c1_counterexample :
    wideImg.width ≠ 160 ∧ ImageToLPBM wideImg = Except.ok (List.replicate 960 0) :=
  ⟨by decide, by rfl⟩

/-- C1 (amended): the encoder has no dimension check and no
InvalidImageDimensions error. It reads pixels at columns 0–159 and rows
0–42 only, so any image with width ≥ 160 and height ≥ 43 — including
wrong-dimension images larger than the device — encodes successfully to
exactly 960 bytes, while an image missing one of those pixels fails with an
out-of-bounds pixel access IndexError, returning no output bytes. -/
theorem c1_amended (img : PILImage) :
    (160 ≤ img.width ∧ 43 ≤ img.height →
      ∃ l, ImageToLPBM img = Except.ok l ∧ l.length = 960) ∧
    (img.width < 160 ∨ img.height < 43 → ImageToLPBM img = Except.error "IndexError") := by
  constructor
  · rintro ⟨hw, hh⟩
    exact ⟨_, ImageToLPBM_ok img hw hh, by simp⟩
  · exact ImageToLPBM_error img

/-- Witness for C1 (amended) at the concrete undersized image. -/
theorem c1_amended_witness : ImageToLPBM tinyImg = Except.error "IndexError" :=
  (c1_amended tinyImg).2 (Or.inl (by decide))

/-- C6: for a correctly-sized (160×48) monochrome image, the output has
exactly 960 bytes; byte `i` covers column `i % 160` and row band
`8 * (i / 160)`; bit `k` is 1 exactly when pixel `(col, rowband + k)` is
black (value 0), except in the row band starting at row 40, where only
bits 0–2 carry pixels and bits 3–7 are 0. -/
theorem c6_encoder_layout (img : PILImage) (hw : img.width = 160) (hh : img.height = 48) :
    ∃ l, ImageToLPBM img = Except.ok l ∧ l.length = 960 ∧
      ∀ i, i < 960 → ∀ k, k < 8 →
        (l.getD i 0).testBit k =
          if 8 * (i / 160) = 40 ∧ 3 ≤ k then false
          else decide (img.px (i % 160) (8 * (i / 160) + k) = 0) := by
  refine ⟨(List.range 960).map (lpbmByte img),
    ImageToLPBM_ok img (by omega) (by omega), by simp, ?_⟩
  intro i hi k hk
  have hlen : i < ((List.range 960).map (lpbmByte img)).length := by simp [hi]
  rw [List.getD_eq_getElem _ _ hlen, List.getElem_map, List.getElem_range,
    lpbmByte_testBit, show WIDTH_PIXELS = 160 from rfl]
  by_cases hb : 8 * (i / 160) = 40
  · rw [hb, show subrowCount 40 = 3 from rfl]
    by_cases hk3 : 3 ≤ k
    · rw [if_pos ⟨rfl, hk3⟩]
      have hnk : ¬k < 3 := by omega
      simp [hnk]
    · rw [if_neg (fun hcon => hk3 hcon.2)]
      have hk' : k < 3 := by omega
      simp [hk', beq_nat_decide]
  · have hsc : subrowCount (8 * (i / 160)) = 8 := by
      unfold subrowCount
      rw [if_neg (by simpa using hb)]
    rw [hsc, if_neg (fun hcon => hb hcon.1)]
    simp [hk, beq_nat_decide]

/-- A 160×48 checkerboard image used to witness C6. -/
def checkImg : PILImage := ⟨160, 48, fun c r => if (c + r) % 2 == 0 then 0 else 255⟩

/-- Witness for C6 at the concrete checkerboard image. -/
theorem c6_encoder_layout_witness :
    ∃ l, ImageToLPBM checkImg = Except.ok l ∧ l.length = 960 ∧
      ∀ i, i < 960 → ∀ k, k < 8 →
        (l.getD i 0).testBit k =
          if 8 * (i / 160) = 40 ∧ 3 ≤ k then false
          else decide (checkImg.px (i % 160) (8 * (i / 160) + k) = 0) :=
  c6_encoder_layout checkImg rfl rfl

/-- A fully-black 160×48 image (pixel value 0 = black). -/
def blackImg : PILImage := ⟨160, 48, fun _ _ => 0⟩

/-- A fully-white 160×48 image. -/
def whiteImg : PILImage := ⟨160, 48, fun _ _ => 255⟩

set_option maxRecDepth 10000 in
/-- C7 counterexample: encoding the fully-black image yields byte 0 = 0xFF
but byte 800 = 0x07 — neither all-0x00 nor all-set — and the fully-white
encoding has byte 800 = 0x00, which is not the complement 255 - 7 = 248. -/
theorem c7_counterexample :
    (ImageToLPBM blackImg).map (fun l => (l.getD 0 0, l.getD 800 0)) = Except.ok (255, 7) ∧
    (ImageToLPBM whiteImg).map (fun l => l.getD 800 0) = Except.ok 0 ∧
    (7 : Nat) ≠ 0 ∧ (7 : Nat) ≠ 255 ∧ (0 : Nat) ≠ 255 - 7 :=
  ⟨by rfl, by rfl, by decide, by decide, by decide⟩

set_option maxRecDepth 10000 in
/-- C7 (amended): encoding the fully-black image yields 0xFF for the 800
bytes of the five full row bands and 0x07 for the 160 bytes of the final
short band (only bits 0–2 carry pixels there), 960 bytes in total; the
fully-white image encodes to 960 0x00 bytes, the complement of the black
encoding on the contributing bits only. -/
theorem c7_amended :
    ImageToLPBM blackImg = Except.ok (List.replicate 800 255 ++ List.replicate 160 7) ∧
    ImageToLPBM whiteImg = Except.ok (List.replicate 960 0) ∧
    (List.replicate 800 (255 : Nat) ++ List.replicate 160 (7 : Nat)).length = 960 :=
  ⟨by rfl, by rfl, by simp⟩


/-! ### Device session manager (`g13gui/g13gui/g13/manager.py`)

`Manager` runs discovery, the polling loop, command-queue draining and
event synthesis. USB and uinput effects are embedded as explicit logs on
the manager state; the nondeterministic environment (what `usb.core.find`
returns, whether transfers fail, when other threads act) is supplied as
explicit event scripts. -/

/-- `Manager.State`. -/
inductive MState
  | DISCOVERING
  | FOUND
  | SHUTDOWN
deriving DecidableEq

/-- Modelled from the spec: the stick mode enumeration exposed by the
profile collaborator (`g13gui.model.bindings.StickMode` is not part of the
analyzed sources); the spec names the three modes Keys, Absolute and
Relative. -/
inductive StickMode
  | KEYS
  | ABSOLUTE
  | RELATIVE
deriving DecidableEq

/-- Modelled from the spec: a logical key of the device's fixed key table
(`g13gui.g13.common.G13NormalKeys` is not part of the analyzed sources).
The spec describes the static table as mapping each logical key identifier
to a (report byte, bit) pair. -/
structure GKey where
  byte : Nat
  bit : Nat
deriving DecidableEq

/-- Modelled from the spec: `key.testReport(report)` decodes the key's
boolean state from the raw report via a fixed bit test at the key's
(byte, bit) position. -/
def GKey.testReport (k : GKey) (report : List Nat) : Bool :=
  Nat.testBit (report.getD k.byte 0) k.bit

/-- Modelled from the spec: the fixed normal-key table, 22 G-keys laid out
over successive (byte, bit) positions of the button bitfield region. -/
def G13NormalKeys : List GKey :=
  (List.range 22).map (fun i => ⟨i / 8, i % 8⟩)

/-- Keys of the `_lastKeyState` dictionary: logical keys (enum members) or
stick-region names (strings). -/
inductive KeyId
  | key (k : GKey)
  | region (name : String)
deriving DecidableEq

/-- One `uinput.write` call. -/
inductive UEvent
  | keyDown (code : Nat)
  | keyUp (code : Nat)
  | absX (v : Nat)
  | absY (v : Nat)
deriving DecidableEq

/-- The profile collaborator contract (`self._prefs.selectedProfile()`):
`stickMode`, `stickRegions()` and `keyBinding(...)` for keys and for
region names. -/
structure Region where
  x0 : ℚ
  y0 : ℚ
  x1 : ℚ
  y1 : ℚ

structure Profile where
  stickMode : StickMode
  stickRegions : List (String × Region)
  keyBinding : KeyId → List Nat

/-- The shared transition-to-events logic of `_synthesizeKeys` and
`_synthesizeStick`: on a false→true transition emit key-down for every
code of the binding, on true→false emit key-up, otherwise nothing. -/
def keyTick (binding : List Nat) (wasPressed nowPressed : Bool) : List UEvent :=
  if !wasPressed && nowPressed then binding.map UEvent.keyDown
  else if wasPressed && !nowPressed then binding.map UEvent.keyUp
  else []

/-- The `for key in G13NormalKeys` loop of `_synthesizeKeys`: reads the
binding fresh from the profile, compares against `_lastKeyState` (absent
keys read as False), emits transition events, and updates
`_lastKeyState[key]`. Returns the updated map and the per-key event log in
loop order. -/
def synthKeysLoop (prof : Profile) (report : List Nat) :
    List GKey → (KeyId → Bool) → (KeyId → Bool) × List (GKey × List UEvent)
  | [], last => (last, [])
  | k :: ks, last =>
    let binding := prof.keyBinding (KeyId.key k)
    let wasPressed := last (KeyId.key k)
    let nowPressed := k.testReport report
    let evs := keyTick binding wasPressed nowPressed
    let rest := synthKeysLoop prof report ks
      (fun i => if i = KeyId.key k then nowPressed else last i)
    (rest.1, (k, evs) :: rest.2)

/-- `Manager._synthesizeKeys(report)` over the fixed key table. -/
def synthesizeKeys (prof : Profile) (report : List Nat) (last : KeyId → Bool) :
    (KeyId → Bool) × List (GKey × List UEvent) :=
  synthKeysLoop prof report G13NormalKeys last

/-- Iterate `_synthesizeKeys` over a sequence of full reports, collecting
each tick's per-key event log. -/
def runSynthKeys (prof : Profile) : (KeyId → Bool) → List (List Nat) → List (List (GKey × List UEvent))
  | _, [] => []
  | last, r :: rs =>
    let p := synthesizeKeys prof r last
    p.2 :: runSynthKeys prof p.1 rs

/-- The events emitted during the loop iterations for key `X` within one
tick's log. -/
def logFor (X : GKey) : List (GKey × List UEvent) → List UEvent
  | [] => []
  | p :: ps => if p.1 = X then p.2 ++ logFor X ps else logFor X ps

/-- All events of one tick's log, in emission order. -/
def allEvents : List (GKey × List UEvent) → List UEvent
  | [] => []
  | p :: ps => p.2 ++ allEvents ps

/-- The region containment test of `_synthesizeStick` (Keys mode):
`inX = joy_x >= region[0] and joy_x <= region[2]`,
`inY = joy_y >= region[1] and joy_y <= region[3]`. -/
def stickRegionContains (jx jy : ℚ) (reg : Region) : Bool :=
  (decide (jx ≥ reg.x0) && decide (jx ≤ reg.x1)) &&
    (decide (jy ≥ reg.y0) && decide (jy ≤ reg.y1))

/-- The `for name, region in regions.items()` loop of `_synthesizeStick`
in Keys mode, with the same transition logic as the key loop, tracked per
region name. -/
def synthStickRegions (prof : Profile) (jx jy : ℚ) :
    List (String × Region) → (KeyId → Bool) → (KeyId → Bool) × List UEvent
  | [], last => (last, [])
  | (name, reg) :: rest, last =>
    let binding := prof.keyBinding (KeyId.region name)
    let wasPressed := last (KeyId.region name)
    let nowPressed := stickRegionContains jx jy reg
    let evs := keyTick binding wasPressed nowPressed
    let next := synthStickRegions prof jx jy rest
      (fun i => if i = KeyId.region name then nowPressed else last i)
    (next.1, evs ++ next.2)

/-- `Manager._synthesizeStick(report)`: bytes 1–2 are the joystick axes;
Keys mode normalizes them by 255 and tests regions, Absolute mode forwards
them as absolute-axis events, Relative mode is an explicit no-op. -/
def synthesizeStick (prof : Profile) (report : List Nat) (last : KeyId → Bool) :
    (KeyId → Bool) × List UEvent :=
  let jx := report.getD 1 0
  let jy := report.getD 2 0
  match prof.stickMode with
  | StickMode.KEYS =>
    synthStickRegions prof ((jx : ℚ) / 255) ((jy : ℚ) / 255) prof.stickRegions last
  | StickMode.RELATIVE => (last, [])
  | StickMode.ABSOLUTE => (last, [UEvent.absX jx, UEvent.absY jy])

/-- A queued command: the closure `[fn, args]` put on `_commandQueue` by
one of the three mutating operations, as a tagged record. -/
inductive Command
  | setLeds (leds : Nat)
  | setBacklight (r g b : Nat)
  | setLCD (buffer : List Nat)
deriving DecidableEq

/-- `StateError`. -/
inductive StErr
  | stateError
deriving DecidableEq

/-- The `Manager` object state. USB and uinput side effects are kept as
explicit logs: `executed` records each command execution attempt tagged
with the discovery generation it ran in, `emitted` records `uinput.write`
calls, `resets` counts `_reset()` calls, and `gen` counts completed
`_discover()` calls. -/
structure Mgr where
  state : MState
  device : Option Nat
  lastKeyState : KeyId → Bool
  commandQueue : List Command
  executed : List (Nat × Command)
  emitted : List UEvent
  resets : Nat
  gen : Nat

/-- `Manager.__init__`: starts Discovering with no device, an empty
last-key-state mapping and an empty command queue. -/
def initMgr : Mgr where
  state := MState.DISCOVERING
  device := none
  lastKeyState := fun _ => false
  commandQueue := []
  executed := []
  emitted := []
  resets := 0
  gen := 0

/-- `Manager._ensureState`: raises StateError when the current state
differs from the expected one. -/
def ensureState (m : Mgr) (s : MState) : Option StErr :=
  if m.state ≠ s then some StErr.stateError else none

/-- `Manager.setLedsMode`: guard on Found, then enqueue. Returns the
manager state after the call together with the raised error, if any. -/
def setLedsMode (m : Mgr) (leds : Nat) : Mgr × Option StErr :=
  match ensureState m MState.FOUND with
  | some e => (m, some e)
  | none => ({ m with commandQueue := m.commandQueue ++ [Command.setLeds leds] }, none)

/-- `Manager.setBacklightColor`: guard on Found, then enqueue. -/
def setBacklightColor (m : Mgr) (r g b : Nat) : Mgr × Option StErr :=
  match ensureState m MState.FOUND with
  | some e => (m, some e)
  | none => ({ m with commandQueue := m.commandQueue ++ [Command.setBacklight r g b] }, none)

/-- `Manager.setLCDBuffer`: guard on Found, then enqueue. -/
def setLCDBuffer (m : Mgr) (buffer : List Nat) : Mgr × Option StErr :=
  match ensureState m MState.FOUND with
  | some e => (m, some e)
  | none => ({ m with commandQueue := m.commandQueue ++ [Command.setLCD buffer] }, none)

/-- `Manager._reset()`: best-effort `device.reset()`, dispose, clear the
handle and sleep. -/
def reset (m : Mgr) : Mgr :=
  { m with device := none, resets := m.resets + 1 }

/-- One pass of `_discover`'s retry loop as dictated by the environment:
which device `usb.core.find` eventually returns (the inner find loop
retries until a device appears), and whether the subsequent
reset/detach/set_configuration claim sequence succeeds. -/
structure DiscEvent where
  findResult : Nat
  claimOk : Bool

/-- An observable instant: the `state` property paired with the device
handle, as another thread could read them. -/
abbrev Snap := MState × Option Nat

/-- The `while self._state == DISCOVERING` loop of `_discover`, returning
the manager together with the trace of observable (state, device) snapshots
after each assignment to `_device` or `_state`. Returns `none` when the
event script ends before discovery succeeds. -/
def discoverLoop (m : Mgr) : List DiscEvent → Option (Mgr × List Snap)
  | [] => none
  | ev :: evs =>
    let m1 := { m with device := some ev.findResult }
    if ev.claimOk then
      let m2 := { m1 with state := MState.FOUND }
      some (m2, [(m1.state, m1.device), (m2.state, m2.device)])
    else
      let m2 := reset m1
      match discoverLoop m2 evs with
      | none => none
      | some q => some (q.1, (m1.state, m1.device) :: (m2.state, m2.device) :: q.2)

/-- `Manager._discover()`: reset any held device, set state to Discovering,
then loop until a device is found and claimed (state becomes Found).
`gen` is bumped on success to tag the new session generation. -/
def discover (m : Mgr) (evs : List DiscEvent) : Option (Mgr × List Snap) :=
  let m0 := if m.device.isSome then reset m else m
  let m1 := { m0 with state := MState.DISCOVERING }
  match discoverLoop m1 evs with
  | none => none
  | some q => some ({ q.1 with gen := q.1.gen + 1 }, (m1.state, m1.device) :: q.2)

/-- The outcome of `_readKeys` for one polling iteration: a timeout (not an
error, count 0), a full 8-byte report, or a USBError other than timeout. -/
inductive ReadResult
  | timeout
  | report (r : List Nat)
  | ioError
deriving DecidableEq

/-- The environment of one inner-loop iteration: whether another thread
called `shutdown()` before the loop-guard check, the commands other
threads enqueued since the previous iteration, the read outcome, and the
success of each command execution attempted during the drain. -/
structure InnerEvent where
  shutdownSignal : Bool
  enq : List Command
  read : ReadResult
  cmdOk : List Bool

/-- `Manager._processCommands()`: `get_nowait` until `queue.Empty`,
executing each command. A failing execution raises out of the drain: the
failing command has been dequeued, the remainder stays queued. Returns the
remaining queue, the log of executions attempted (tagged with generation
`g`), and whether a USBError escaped. -/
def processCommands (g : Nat) : List Command → List Bool → List Command × List (Nat × Command) × Bool
  | [], _ => ([], [], false)
  | c :: cs, oks =>
    if oks.headD true then
      let rest := processCommands g cs oks.tail
      (rest.1, (g, c) :: rest.2.1, rest.2.2)
    else
      (cs, [(g, c)], true)

/-- The body of one Found-state iteration of `Manager.run`: read (a
timeout yields no report), on a full report synthesize keys then stick and
flush, then drain the command queue; any USBError breaks the inner loop.
Returns the manager and whether the iteration broke out. -/
def innerIter (prof : Profile) (m : Mgr) (ev : InnerEvent) : Mgr × Bool :=
  match ev.read with
  | ReadResult.ioError => (m, true)
  | ReadResult.timeout =>
    let res := processCommands m.gen m.commandQueue ev.cmdOk
    ({ m with commandQueue := res.1, executed := m.executed ++ res.2.1 }, res.2.2)
  | ReadResult.report r =>
    let pk := synthesizeKeys prof r m.lastKeyState
    let ps := synthesizeStick prof r pk.1
    let m1 := { m with lastKeyState := ps.1,
                       emitted := m.emitted ++ allEvents pk.2 ++ ps.2 }
    let res := processCommands m1.gen m1.commandQueue ev.cmdOk
    ({ m1 with commandQueue := res.1, executed := m1.executed ++ res.2.1 }, res.2.2)

/-- The `while self._state == FOUND` inner loop of `Manager.run`. Other
threads act between iterations (shutdown signal, enqueues); the loop exits
when the guard fails or a USBError breaks out. Returns the manager and the
unconsumed events, or `none` if the script ends with the loop still
spinning. -/
def runInner (prof : Profile) : Mgr → List InnerEvent → Option (Mgr × List InnerEvent)
  | _, [] => none
  | m, ev :: evs =>
    let m0 := { m with commandQueue := m.commandQueue ++ ev.enq,
                       state := if ev.shutdownSignal then MState.SHUTDOWN else m.state }
    if m0.state = MState.FOUND then
      let res := innerIter prof m0 ev
      if res.2 then some (res.1, evs) else runInner prof res.1 evs
    else
      some (m0, evs)

/-- The code after `Manager.run`'s outer loop: reset the device only if one
is held *and* the state is still Found. -/
def runExit (m : Mgr) : Mgr :=
  if m.device.isSome && m.state == MState.FOUND then reset m else m

/-- The `while self._state != SHUTDOWN` outer loop of `Manager.run`:
discover, then poll until the inner loop exits; on exit run the
post-loop reset check. Consumes one discovery script per outer iteration. -/
def runLoop (prof : Profile) : List (List DiscEvent) → Mgr → List InnerEvent → Option Mgr
  | [], m, _ =>
    if m.state = MState.SHUTDOWN then some (runExit m) else none
  | d :: ds, m, inners =>
    if m.state = MState.SHUTDOWN then some (runExit m)
    else
      match discover m d with
      | none => none
      | some md =>
        match runInner prof md.1 inners with
        | none => none
        | some res => runLoop prof ds res.1 res.2

/-- The environment script for a whole `Manager.run` execution. -/
structure RunScript where
  discs : List (List DiscEvent)
  inners : List InnerEvent

/-- `Manager.run()`. -/
def run (prof : Profile) (m : Mgr) (s : RunScript) : Option Mgr :=
  runLoop prof s.discs m s.inners

/-- A minimal concrete profile (absolute stick mode, empty bindings). -/
def prof0 : Profile where
  stickMode := StickMode.ABSOLUTE
  stickRegions := []
  keyBinding := fun _ => []

/-- C4: each of the three mutating operations (`setLedsMode`,
`setBacklightColor`, `setLCDBuffer`) invoked while state ≠ Found raises
StateError synchronously on the calling thread and leaves the manager —
in particular its command queue — completely unchanged: the guard fires
before anything is enqueued. -/
theorem c4_guarded_setters (m : Mgr) (leds r g b : Nat) (buf : List Nat)
    (h : m.state ≠ MState.FOUND) :
    setLedsMode m leds = (m, some StErr.stateError) ∧
    setBacklightColor m r g b = (m, some StErr.stateError) ∧
    setLCDBuffer m buf = (m, some StErr.stateError) := by
  have he : ensureState m MState.FOUND = some StErr.stateError := by
    rw [ensureState, if_pos h]
  exact ⟨by rw [setLedsMode, he], by rw [setBacklightColor, he], by rw [setLCDBuffer, he]⟩

/-- Witness for C4 at the freshly-initialized (Discovering) manager. -/
theorem c4_guarded_setters_witness :
    setLedsMode initMgr 3 = (initMgr, some StErr.stateError) ∧
    setBacklightColor initMgr 1 2 3 = (initMgr, some StErr.stateError) ∧
    setLCDBuffer initMgr [0] = (initMgr, some StErr.stateError) :=
  c4_guarded_setters initMgr 3 1 2 3 [0] (by decide)

/-- The environment script for C2: discovery succeeds at once, then
another thread calls `shutdown()` while the session is Found. -/
def c2Script : RunScript where
  discs := [[⟨1, true⟩]]
  inners := [⟨true, [], ReadResult.timeout, []⟩]

/-- C2, evaluated on the code at the failing input: `shutdown()` while
Found makes the loops exit with state Shutdown, but the device is reset
zero times — not once — and the handle is still held, because the
post-loop reset also requires `state == FOUND`, which is impossible once
the outer loop (whose guard is `state != SHUTDOWN`) has exited. -/
theorem c2_shutdown_skips_reset :
    (run prof0 initMgr c2Script).map Mgr.resets = some 0 ∧
    (run prof0 initMgr c2Script).map Mgr.device = some (some 1) ∧
    (run prof0 initMgr c2Script).map Mgr.state = some MState.SHUTDOWN :=
  ⟨rfl, rfl, rfl⟩

/-- C3 counterexample: inside `_discover`, right after `usb.core.find`
returns a device and before the claim sequence finishes, the handle is
held while `state` still reads Discovering — an observable instant
violating "device handle non-null iff state == Found". The discovery
still returns in the Found state holding the device. -/
theorem c3_counterexample :
    (discover initMgr [⟨1, true⟩]).map
      (fun p => (decide ((MState.DISCOVERING, some 1) ∈ p.2), p.1.state, p.1.device)) =
    some (true, MState.FOUND, some 1) :=
  rfl

theorem discoverLoop_found :
    ∀ (evs : List DiscEvent) (m : Mgr) (p : Mgr × List Snap),
      discoverLoop m evs = some p → p.1.state = MState.FOUND ∧ p.1.device.isSome = true := by
  intro evs
  induction evs with
  | nil => intro m p h; exact Option.noConfusion h
  | cons ev evs ih =>
    intro m p h
    rw [discoverLoop] at h
    by_cases hc : ev.claimOk = true
    · rw [if_pos hc] at h
      injection h with h2
      rw [← h2]
      exact ⟨rfl, rfl⟩
    · rw [if_neg hc] at h
      dsimp only at h
      rcases hr : discoverLoop (reset { m with device := some ev.findResult }) evs with _ | q
      · rw [hr] at h
        exact Option.noConfusion h
      · rw [hr] at h
        injection h with h2
        have hq := ih _ q hr
        rw [← h2]
        exact hq

/-- C3 (amended): the invariant "device handle non-null iff state ==
Found" holds at manager initialization and whenever `_discover` returns
(it always returns Found holding a device); it is not maintained at every
observable instant inside discovery, where the handle is assigned while
state still reads Discovering (see the counterexample). -/
theorem c3_amended :
    (initMgr.device = none ∧ initMgr.state = MState.DISCOVERING) ∧
    ∀ (m : Mgr) (evs : List DiscEvent) (p : Mgr × List Snap),
      discover m evs = some p → p.1.state = MState.FOUND ∧ p.1.device.isSome = true := by
  refine ⟨⟨rfl, rfl⟩, ?_⟩
  intro m evs p h
  rw [discover] at h
  rcases hr : discoverLoop { (if m.device.isSome then reset m else m) with
      state := MState.DISCOVERING } evs with _ | q
  · rw [hr] at h
    exact Option.noConfusion h
  · rw [hr] at h
    injection h with h2
    have hq := discoverLoop_found evs _ q hr
    rw [← h2]
    exact hq

/-- Witness for C3 (amended) at a concrete successful discovery. -/
theorem c3_amended_witness :
    (discover initMgr [⟨1, true⟩]).map (fun p => (p.1.state, p.1.device.isSome)) =
      some (MState.FOUND, true) := by
  have hs : (discover initMgr [⟨1, true⟩]).isSome = true := rfl
  rcases Option.isSome_iff_exists.mp hs with ⟨p, hp⟩
  have hq := c3_amended.2 initMgr [⟨1, true⟩] p hp
  rw [hp]
  simp [hq.1, hq.2]

/-- The environment script for C8: commands A and B are queued; A's
execution raises a USBError, the session re-discovers, and the next
iteration drains the queue again. -/
def c8Script : RunScript where
  discs := [[⟨1, true⟩], [⟨2, true⟩]]
  inners := [⟨false, [Command.setLeds 1, Command.setBacklight 1 2 3], ReadResult.timeout, [false]⟩,
             ⟨false, [], ReadResult.timeout, [true]⟩,
             ⟨true, [], ReadResult.timeout, []⟩]

/-- C8 counterexample: with commands A = setLeds and B = setBacklight
queued in generation 1, A's failing execution breaks the loop, the session
re-discovers (one reset, generation becomes 2) — and B, far from being
abandoned, executes in generation 2, after the session recovered. -/
theorem c8_counterexample :
    (run prof0 initMgr c8Script).map Mgr.executed =
      some [(1, Command.setLeds 1), (2, Command.setBacklight 1 2 3)] ∧
    (run prof0 initMgr c8Script).map Mgr.gen = some 2 ∧
    (run prof0 initMgr c8Script).map Mgr.resets = some 1 :=
  ⟨rfl, rfl, rfl⟩

/-- C8 (amended): only the command whose execution raises the I/O error is
abandoned — it has been dequeued and is neither retried nor requeued, and
the error breaks the iteration; a read error consumes no commands and
leaves the manager untouched. Commands still in the queue survive the drop
to discovery and are executed after the session recovers, as the concrete
recovery run shows. -/
theorem c8_amended (g : Nat) (c : Command) (cs : List Command) (oks : List Bool)
    (prof : Profile) (m : Mgr) (ev : InnerEvent)
    (hfail : oks.headD true = false) (hread : ev.read = ReadResult.ioError) :
    processCommands g (c :: cs) oks = (cs, [(g, c)], true) ∧
    innerIter prof m ev = (m, true) ∧
    (run prof0 initMgr c8Script).map Mgr.executed =
      some [(1, Command.setLeds 1), (2, Command.setBacklight 1 2 3)] := by
  refine ⟨?_, ?_, rfl⟩
  · rw [processCommands, if_neg (by rw [hfail]; exact Bool.false_ne_true)]
  · rw [innerIter, hread]

/-- Witness for C8 (amended) at a concrete failing command and read error. -/
theorem c8_amended_witness :
    processCommands 0 [Command.setLeds 1] [false] = ([], [(0, Command.setLeds 1)], true) ∧
    innerIter prof0 initMgr ⟨false, [], ReadResult.ioError, []⟩ = (initMgr, true) :=
  ⟨(c8_amended 0 (Command.setLeds 1) [] [false] prof0 initMgr
      ⟨false, [], ReadResult.ioError, []⟩ rfl rfl).1,
   (c8_amended 0 (Command.setLeds 1) [] [false] prof0 initMgr
      ⟨false, [], ReadResult.ioError, []⟩ rfl rfl).2.1⟩

/-- After the key loop, the stored state of `X` is its decoded bit if `X`
was in the processed table, and is untouched otherwise. -/
theorem synthKeysLoop_last (prof : Profile) (report : List Nat) (X : GKey) :
    ∀ (keys : List GKey) (last : KeyId → Bool),
      (synthKeysLoop prof report keys last).1 (KeyId.key X) =
        if X ∈ keys then X.testReport report else last (KeyId.key X) := by
  intro keys
  induction keys with
  | nil =>
    intro last
    rw [synthKeysLoop, if_neg (List.not_mem_nil X)]
  | cons k ks ih =>
    intro last
    rw [synthKeysLoop]
    dsimp only
    rw [ih]
    by_cases hxk : X = k
    · subst hxk
      rw [if_pos (List.mem_cons_self X ks)]
      by_cases hmem : X ∈ ks
      · rw [if_pos hmem]
      · rw [if_neg hmem, if_pos rfl]
    · by_cases hmem : X ∈ ks
      · rw [if_pos hmem, if_pos (List.mem_cons_of_mem k hmem)]
      · rw [if_neg hmem,
          if_neg (fun hm => (List.mem_cons.mp hm).elim hxk hmem),
          if_neg (fun hc : KeyId.key X = KeyId.key k => hxk (KeyId.key.inj hc))]

/-- A key not in the processed table contributes no log entries. -/
theorem synthKeysLoop_logFor_not_mem (prof : Profile) (report : List Nat) (X : GKey) :
    ∀ (keys : List GKey) (last : KeyId → Bool), X ∉ keys →
      logFor X (synthKeysLoop prof report keys last).2 = [] := by
  intro keys
  induction keys with
  | nil => intro last _; rfl
  | cons k ks ih =>
    intro last hnot
    rw [synthKeysLoop]
    dsimp only
    rw [logFor, if_neg (fun h : k = X => hnot (List.mem_cons.mpr (Or.inl h.symm)))]
    exact ih _ (fun h => hnot (List.mem_cons_of_mem k h))

/-- The events emitted for key `X` in one pass of the key loop are exactly
the transition events for its stored state versus its decoded bit. -/
theorem synthKeysLoop_logFor (prof : Profile) (report : List Nat) (X : GKey) :
    ∀ (keys : List GKey) (last : KeyId → Bool), X ∈ keys → keys.Nodup →
      logFor X (synthKeysLoop prof report keys last).2 =
        keyTick (prof.keyBinding (KeyId.key X)) (last (KeyId.key X)) (X.testReport report) := by
  intro keys
  induction keys with
  | nil => intro last hmem _; exact absurd hmem (List.not_mem_nil X)
  | cons k ks ih =>
    intro last hmem hnd
    rw [synthKeysLoop]
    dsimp only
    by_cases hxk : k = X
    · subst hxk
      rw [logFor, if_pos rfl,
        synthKeysLoop_logFor_not_mem prof report k ks _ (List.nodup_cons.mp hnd).1,
        List.append_nil]
    · rw [logFor, if_neg hxk]
      have hmem' : X ∈ ks := (List.mem_cons.mp hmem).elim
        (fun h => absurd h.symm hxk) id
      rw [ih _ hmem' (List.nodup_cons.mp hnd).2]
      rw [if_neg (fun hc : KeyId.key X = KeyId.key k => hxk (KeyId.key.inj hc).symm)]

/-- If every key's stored state already equals its decoded bit, a pass of
the key loop emits nothing. -/
theorem synthKeysLoop_no_events (prof : Profile) (report : List Nat) :
    ∀ (keys : List GKey) (last : KeyId → Bool),
      (∀ X ∈ keys, last (KeyId.key X) = X.testReport report) →
      allEvents (synthKeysLoop prof report keys last).2 = [] := by
  intro keys
  induction keys with
  | nil => intro last _; rfl
  | cons k ks ih =>
    intro last hlast
    rw [synthKeysLoop]
    dsimp only
    rw [allEvents]
    have hk := hlast k (List.mem_cons_self k ks)
    have htick : keyTick (prof.keyBinding (KeyId.key k)) (last (KeyId.key k))
        (k.testReport report) = [] := by
      rw [hk]
      cases k.testReport report <;> rfl
    rw [htick, List.nil_append]
    apply ih
    intro X hX
    dsimp only
    by_cases hxk : KeyId.key X = KeyId.key k
    · rw [if_pos hxk, KeyId.key.inj hxk]
    · rw [if_neg hxk]
      exact hlast X (List.mem_cons_of_mem k hX)

/-- C10: after any single `_synthesizeKeys` call on a full report, every
key's `_lastKeyState` entry equals exactly its decoded bit from that
report, for any profile bindings; hence a second call on the same report
emits no events at all. -/
theorem c10_lastKeyState (prof : Profile) (report : List Nat) (last : KeyId → Bool) :
    (∀ X, X ∈ G13NormalKeys →
      (synthesizeKeys prof report last).1 (KeyId.key X) = X.testReport report) ∧
    allEvents (synthesizeKeys prof report ((synthesizeKeys prof report last).1)).2 = [] := by
  constructor
  · intro X hX
    rw [synthesizeKeys, synthKeysLoop_last, if_pos hX]
  · apply synthKeysLoop_no_events
    intro X hX
    rw [synthesizeKeys, synthKeysLoop_last, if_pos hX]

/-- Witness for C10 at a concrete key, report and empty state map. -/
theorem c10_lastKeyState_witness :
    (synthesizeKeys prof0 [0, 0, 0, 0, 0, 0, 0, 0] (fun _ => false)).1
        (KeyId.key ⟨0, 0⟩) =
      GKey.testReport ⟨0, 0⟩ [0, 0, 0, 0, 0, 0, 0, 0] :=
  (c10_lastKeyState prof0 [0, 0, 0, 0, 0, 0, 0, 0] (fun _ => false)).1 ⟨0, 0⟩ (by decide)

/-- The per-key transition trace over a sequence of decoded bits. -/
def keyTrace (binding : List Nat) : Bool → List Bool → List (List UEvent)
  | _, [] => []
  | prev, b :: bs => keyTick binding prev b :: keyTrace binding b bs

/-- Over any report sequence, the events emitted for a table key `X`
follow its transition trace. -/
theorem runSynthKeys_logFor (prof : Profile) (X : GKey) (hX : X ∈ G13NormalKeys) :
    ∀ (rs : List (List Nat)) (last : KeyId → Bool),
      (runSynthKeys prof last rs).map (logFor X) =
        keyTrace (prof.keyBinding (KeyId.key X)) (last (KeyId.key X))
          (rs.map X.testReport) := by
  have hnd : G13NormalKeys.Nodup := by decide
  intro rs
  induction rs with
  | nil => intro last; rfl
  | cons r rs ih =>
    intro last
    rw [runSynthKeys]
    rw [List.map_cons, ih ((synthesizeKeys prof r last).1),
      show (synthesizeKeys prof r last).1 (KeyId.key X) = X.testReport r from
        by rw [synthesizeKeys, synthKeysLoop_last, if_pos hX],
      show logFor X (synthesizeKeys prof r last).2 =
          keyTick (prof.keyBinding (KeyId.key X)) (last (KeyId.key X)) (X.testReport r) from
        by rw [synthesizeKeys]; exact synthKeysLoop_logFor prof r X G13NormalKeys last hX hnd,
      List.map_cons]
    rfl

/-- C5: for a key `X` of the fixed table, initially unpressed, and five
full reports decoding `X` as 0,0,1,1,0, the synthesizer emits exactly two
emission events for `X`: key-down for every code of `X`'s binding at the
third report, key-up for the same codes at the fifth, and nothing at the
reports where the bit is unchanged. -/
theorem c5_edge_trigger (prof : Profile) (X : GKey) (last : KeyId → Bool)
    (r1 r2 r3 r4 r5 : List Nat)
    (hX : X ∈ G13NormalKeys)
    (h0 : last (KeyId.key X) = false)
    (h1 : X.testReport r1 = false) (h2 : X.testReport r2 = false)
    (h3 : X.testReport r3 = true) (h4 : X.testReport r4 = true)
    (h5 : X.testReport r5 = false) :
    (runSynthKeys prof last [r1, r2, r3, r4, r5]).map (logFor X) =
      [[], [], (prof.keyBinding (KeyId.key X)).map UEvent.keyDown, [],
        (prof.keyBinding (KeyId.key X)).map UEvent.keyUp] := by
  rw [runSynthKeys_logFor prof X hX, h0]
  simp only [List.map_cons, List.map_nil, h1, h2, h3, h4, h5]
  rfl

/-- A profile binding two key codes to the key at byte 0, bit 0. -/
def profW : Profile where
  stickMode := StickMode.ABSOLUTE
  stickRegions := []
  keyBinding := fun i => if i = KeyId.key ⟨0, 0⟩ then [30, 31] else []

/-- Witness for C5 at a concrete key, binding and report sequence. -/
theorem c5_edge_trigger_witness :
    (runSynthKeys profW (fun _ => false)
        [[0, 0, 0, 0, 0, 0, 0, 0], [0, 0, 0, 0, 0, 0, 0, 0], [1, 0, 0, 0, 0, 0, 0, 0],
          [1, 0, 0, 0, 0, 0, 0, 0], [0, 0, 0, 0, 0, 0, 0, 0]]).map (logFor ⟨0, 0⟩) =
      [[], [], (profW.keyBinding (KeyId.key ⟨0, 0⟩)).map UEvent.keyDown, [],
        (profW.keyBinding (KeyId.key ⟨0, 0⟩)).map UEvent.keyUp] :=
  c5_edge_trigger profW ⟨0, 0⟩ (fun _ => false) _ _ _ _ _ (by decide) rfl
    (by decide) (by decide) (by decide) (by decide) (by decide)

/-- C9: region containment in stick Keys mode is inclusive on all four
boundaries: for the region (0.2, 0.2, 0.8, 0.8) the points (0.2, 0.5) and
(0.8, 0.8) are inside and (0.81, 0.5) is outside, and in general a point
is inside exactly when each coordinate lies between the region's minimum
and maximum inclusively. -/
theorem c9_region_containment :
    stickRegionContains (1/5) (1/2) ⟨1/5, 1/5, 4/5, 4/5⟩ = true ∧
    stickRegionContains (4/5) (4/5) ⟨1/5, 1/5, 4/5, 4/5⟩ = true ∧
    stickRegionContains (81/100) (1/2) ⟨1/5, 1/5, 4/5, 4/5⟩ = false ∧
    ∀ (jx jy : ℚ) (reg : Region),
      stickRegionContains jx jy reg = true ↔
        (reg.x0 ≤ jx ∧ jx ≤ reg.x1 ∧ reg.y0 ≤ jy ∧ jy ≤ reg.y1) := by
  have hgen : ∀ (jx jy : ℚ) (reg : Region),
      stickRegionContains jx jy reg = true ↔
        (reg.x0 ≤ jx ∧ jx ≤ reg.x1 ∧ reg.y0 ≤ jy ∧ jy ≤ reg.y1) := by
    intro jx jy reg
    rw [stickRegionContains]
    simp [ge_iff_le, and_assoc]
  refine ⟨?_, ?_, ?_, hgen⟩
  · rw [hgen]
    norm_num
  · rw [hgen]
    norm_num
  · rcases hv : stickRegionContains (81/100) (1/2) ⟨1/5, 1/5, 4/5, 4/5⟩ with _ | _
    · rfl
    · exact absurd ((hgen _ _ _).mp hv) (by norm_num)

/-- Witness for C9's general boundary-inclusiveness clause at a concrete
boundary point. -/
theorem c9_region_containment_witness :
    stickRegionContains (1/5) (3/10) ⟨1/5, 1/5, 4/5, 4/5⟩ = true :=
  (c9_region_containment.2.2.2 (1/5) (3/10) ⟨1/5, 1/5, 4/5, 4/5⟩).mpr (by norm_num)

end G13
